import Mathlib

/-!
Verification of the GitHub tree-mutation engine (file_chmod.py / github_common.py).

A shallow embedding of the mode translator, the retry layer, the reference
resolver, and the `change_file_modes` pipeline, followed by theorems about
them.  Remote HTTP state is modelled by an explicit `Store` value threaded
through every operation; transient server failures are modelled by an
injection function `inj : Nat → Bool` naming the pipeline step that fails.
-/

namespace GH

/-! Python string primitives used by the mode translator. -/

/-- Python `s.lstrip('0') or '0'`: drop leading zero characters, with the
empty result replaced by `"0"`. -/
def pyLstripZeros (s : String) : String :=
  let t := s.data.dropWhile (fun c => c == '0')
  if t.isEmpty then "0" else ⟨t⟩

/-- Python `s.zfill(3)`: left-pad with zeros to width 3, keeping a leading
sign character in place. -/
def pyZfill3 (s : String) : String :=
  if s.data.length ≥ 3 then s
  else
    match s.data with
    | [] => "000"
    | c :: rest =>
      if c == '+' || c == '-' then ⟨c :: (List.replicate (3 - s.data.length) '0' ++ rest)⟩
      else ⟨List.replicate (3 - s.data.length) '0' ++ (c :: rest)⟩

/-- ASCII whitespace accepted around a Python integer literal. -/
def isPyWs (c : Char) : Bool :=
  c == ' ' || c == '\t' || c == '\n' || c == '\r' || c == '\x0b' || c == '\x0c'

/-- Octal digit test. -/
def isOctDigitChar (c : Char) : Bool :=
  c == '0' || c == '1' || c == '2' || c == '3' ||
  c == '4' || c == '5' || c == '6' || c == '7'

/-- Numeric value of an octal digit character. -/
def octDigitVal (c : Char) : Nat := c.toNat - 48

/-- Continuation of an octal digit run: `(('_')? digit)*`, single underscores
allowed only between digits.  `acc` is the value read so far. -/
def octTail : List Char → Nat → Option Nat
  | [], acc => some acc
  | '_' :: c :: rest, acc =>
      if isOctDigitChar c then octTail rest (acc * 8 + octDigitVal c) else none
  | ['_'], _ => none
  | c :: rest, acc =>
      if isOctDigitChar c then octTail rest (acc * 8 + octDigitVal c) else none

/-- A nonempty octal digit run with embedded single underscores. -/
def octDigitsRun : List Char → Option Nat
  | [] => none
  | c :: rest => if isOctDigitChar c then octTail rest (octDigitVal c) else none

/-- Digit part after an optional `0o`/`0O` base marker (one underscore may
follow the marker). -/
def octMarkerRest : List Char → Option Nat
  | '_' :: rest => octDigitsRun rest
  | l => octDigitsRun l

/-- Digit part after the optional sign, accepting the `0o`/`0O` base marker. -/
def octAfterSign : List Char → Option Nat
  | '0' :: 'o' :: rest => octMarkerRest rest
  | '0' :: 'O' :: rest => octMarkerRest rest
  | l => octDigitsRun l

/-- Python `int(s, 8)`: optional surrounding whitespace, optional sign,
optional `0o` marker, then octal digits with single underscores between
digits.  `none` models `ValueError`. -/
def pyIntOct (s : String) : Option Int :=
  let l := s.data.dropWhile isPyWs
  let l := (l.reverse.dropWhile isPyWs).reverse
  match l with
  | '+' :: rest => (octAfterSign rest).map (fun n => (n : Int))
  | '-' :: rest => (octAfterSign rest).map (fun n => -(n : Int))
  | rest => (octAfterSign rest).map (fun n => (n : Int))

/-! The mode translator (github_common.user_mode_to_git_mode and
git_mode_to_display). -/

/-- Embedding of `user_mode_to_git_mode`.  `Except.error` models the raised
`ValueError`. -/
def user_mode_to_git_mode (user_mode : String) : Except String String :=
  let um := pyLstripZeros user_mode
  if um.data.length = 6 ∧ (um.data.head? = some '1' ∨ um.data.head? = some '0') then
    .ok um
  else if um.data.length ≤ 3 then
    let m3 := pyZfill3 um
    match pyIntOct m3 with
    | some n =>
        if n < 0 ∨ n > 511 then .error ("Invalid octal mode: " ++ um)
        else .ok ("100" ++ m3)
    | none => .error ("Invalid octal mode: " ++ um)
  else
    .error ("Invalid mode format: " ++ um)

/-- Embedding of `git_mode_to_display`: the five-entry lookup table with the
unknown mode echoed verbatim. -/
def git_mode_to_display (git_mode : String) : String :=
  if git_mode = "100644" then "644 (regular file)"
  else if git_mode = "100755" then "755 (executable)"
  else if git_mode = "120000" then "symlink"
  else if git_mode = "040000" then "directory"
  else if git_mode = "160000" then "submodule"
  else git_mode

/-- The permission digits named by a display string: the three digits after
the type code when the display is a raw 6-digit mode, the three leading
digits otherwise. -/
def displayedBits (d : String) : String :=
  if d.data.length = 6 then ⟨d.data.drop 3⟩ else ⟨d.data.take 3⟩

/-- The eight octal digit characters. -/
def octChars : List Char := ['0', '1', '2', '3', '4', '5', '6', '7']

/-- A valid user-facing 3-digit octal mode string. -/
def valid3Octal (m : String) : Prop :=
  m.data.length = 3 ∧ ∀ c ∈ m.data, c ∈ octChars

instance (m : String) : Decidable (valid3Octal m) := by
  unfold valid3Octal; infer_instance

/-- All 512 valid 3-digit octal mode strings. -/
def allOct3 : List String :=
  octChars.flatMap (fun a => octChars.flatMap (fun b => octChars.map (fun c => (⟨[a, b, c]⟩ : String))))

/-- Boolean round-trip check used to settle the mode round-trip claim by
evaluation over `allOct3`. -/
def modeRoundTripOK (m : String) : Bool :=
  match user_mode_to_git_mode m with
  | .ok g => g == "100" ++ m && displayedBits (git_mode_to_display g) == m
  | .error _ => false

/-! The resilient request layer (github_common.make_request_with_retry). -/

/-- An HTTP response as the retry layer sees it: the status code and whether
the body text mentions a rate-limit / abuse condition. -/
structure HttpResponse where
  status : Nat
  rateLimited : Bool
deriving DecidableEq, Repr

/-- The 403-with-rate-limit-text test from the retry loop. -/
def isRateLimit403 (r : HttpResponse) : Bool :=
  r.status == 403 && r.rateLimited

/-- One response would trigger a retry when a further attempt remains:
either the rate-limited 403 case or a 5xx server error. -/
def retryCondition (r : HttpResponse) : Bool :=
  isRateLimit403 r || decide (r.status ≥ 500)

/-- The retry loop body, starting at a given attempt index.  `responses i`
is the response the network returns to attempt `i` (0-based).  Returns the
final response together with the total number of attempts made. -/
def retryFrom (responses : Nat → HttpResponse) (max_retries : Nat) :
    Nat → HttpResponse × Nat
  | attempt =>
    let r := responses attempt
    if h : attempt + 1 < max_retries ∧ retryCondition r = true then
      retryFrom responses max_retries (attempt + 1)
    else (r, attempt + 1)
termination_by attempt => max_retries - attempt
decreasing_by omega

/-- Embedding of `make_request_with_retry` for a valid HTTP method: runs the
attempt loop; with no attempts allowed the Python code would return `None`,
modelled by `none`.  No exception is ever raised for a non-2xx status: the
final response is returned for the caller to inspect. -/
def make_request_with_retry (responses : Nat → HttpResponse) (max_retries : Nat) :
    Option (HttpResponse × Nat) :=
  if max_retries = 0 then none else some (retryFrom responses max_retries 0)

/-! The remote store model: branch references, commits, trees, tags.
All pipeline operations thread a `Store` value explicitly; operations that
only read return the store unchanged, object creation adds new objects, and
only `update_branch_ref` rewrites a branch pointer. -/

/-- One entry of a (recursively listed) git tree. -/
structure TreeEntry where
  path : String
  mode : String
  type : String
  sha : String
deriving DecidableEq, Repr

/-- A commit object with a single parent, as created by `create_commit`. -/
structure Commit where
  sha : String
  tree : String
  parent : String
  message : String
deriving DecidableEq, Repr

/-- The remote store: branch pointers, commit objects, tree objects, tag
references and annotated tag objects, plus a counter used to mint fresh
object ids. -/
structure Store where
  branches : List (String × String)
  commits : List Commit
  trees : List (String × List TreeEntry)
  tags : List (String × String × String)
  tagObjects : List (String × String)
  fresh : Nat
deriving DecidableEq, Repr

/-- Association-list lookup (first match). -/
def alookup {α : Type} (l : List (String × α)) (k : String) : Option α :=
  (l.find? (fun p => p.1 == k)).map (fun p => p.2)

/-- Replace the target of an existing branch pointer. -/
def setBranch (bs : List (String × String)) (b sha : String) : List (String × String) :=
  bs.map (fun p => if p.1 == b then (b, sha) else p)

/-- Errors surfaced by the pipeline steps (the Python code prints a message
and exits; the exit is modelled as `Except.error`). -/
inductive ApiError where
  | badMode (msg : String)
  | branchNotFound (branch : String)
  | commitNotFound (sha : String)
  | treeNotFound (sha : String)
  | pathsNotFound (paths : List String)
  | serverError (step : Nat)
  | conflict (branch : String)
  | refNotFound (ref : String)
deriving DecidableEq, Repr

/-- Step 1, `get_branch_head_sha`: read the commit a branch points to. -/
def get_branch_head_sha (inj : Nat → Bool) (s : Store) (branch : String) :
    Except ApiError String :=
  if inj 1 then .error (.serverError 1)
  else
    match alookup s.branches branch with
    | some sha => .ok sha
    | none => .error (.branchNotFound branch)

/-- Step 2, `get_commit_tree_sha`: read the root tree of a commit. -/
def get_commit_tree_sha (inj : Nat → Bool) (s : Store) (commit_sha : String) :
    Except ApiError String :=
  if inj 2 then .error (.serverError 2)
  else
    match s.commits.find? (fun c => c.sha == commit_sha) with
    | some c => .ok c.tree
    | none => .error (.commitNotFound commit_sha)

/-- Step 3, `get_tree_recursive`: the full flattened entry list of a tree. -/
def get_tree_recursive (inj : Nat → Bool) (s : Store) (tree_sha : String) :
    Except ApiError (List TreeEntry) :=
  if inj 3 then .error (.serverError 3)
  else
    match alookup s.trees tree_sha with
    | some entries => .ok entries
    | none => .error (.treeNotFound tree_sha)

/-- The store-side structural merge performed by the trees endpoint: entries
named in `changes` replace the base entries with the same path, the rest are
carried over, and change paths absent from the base are appended. -/
def applyTreeChanges (base changes : List TreeEntry) : List TreeEntry :=
  (base.map (fun e =>
    match changes.find? (fun c => c.path == e.path) with
    | some c => c
    | none => e)) ++
  changes.filter (fun c => base.all (fun e => e.path != c.path))

/-- Step 6, `create_tree_with_changes`: create a new immutable tree object;
branch pointers are untouched. -/
def create_tree_with_changes (inj : Nat → Bool) (s : Store)
    (base_tree_sha : String) (changes : List TreeEntry) :
    Except ApiError String × Store :=
  if inj 6 then (.error (.serverError 6), s)
  else
    match alookup s.trees base_tree_sha with
    | none => (.error (.treeNotFound base_tree_sha), s)
    | some base =>
      let newSha := "tree-" ++ toString s.fresh
      (.ok newSha,
       { s with
          trees := (newSha, applyTreeChanges base changes) :: s.trees,
          fresh := s.fresh + 1 })

/-- Step 7, `create_commit`: create a new immutable commit object with one
parent; branch pointers are untouched. -/
def create_commit (inj : Nat → Bool) (s : Store)
    (tree_sha parent_sha message : String) :
    Except ApiError String × Store :=
  if inj 7 then (.error (.serverError 7), s)
  else
    let newSha := "commit-" ++ toString s.fresh
    (.ok newSha,
     { s with
        commits := ⟨newSha, tree_sha, parent_sha, message⟩ :: s.commits,
        fresh := s.fresh + 1 })

/-- Step 8, `update_branch_ref`: the only operation that rewrites a branch
pointer.  A simulated non-fast-forward conflict (`inj 8`) or a missing
branch fails without touching the store. -/
def update_branch_ref (inj : Nat → Bool) (s : Store)
    (branch commit_sha : String) :
    Except ApiError Unit × Store :=
  if inj 8 then (.error (.conflict branch), s)
  else
    match alookup s.branches branch with
    | none => (.error (.branchNotFound branch), s)
    | some _ => (.ok (), { s with branches := setBranch s.branches branch commit_sha })

/-- Embedding of `get_ref_sha` from github_common.py: branch first, then tag,
then literal commit id; the tag arm returns the referenced object id
directly, with no dereference of annotated tag objects. -/
def get_ref_sha (s : Store) (ref : String) : Except ApiError String :=
  match alookup s.branches ref with
  | some sha => .ok sha
  | none =>
    match alookup s.tags ref with
    | some obj => .ok obj.2
    | none =>
      match s.commits.find? (fun c => c.sha == ref) with
      | some c => .ok c.sha
      | none => .error (.refNotFound ref)

/-! The mode-change pipeline (file_chmod.py). -/

/-- Python `path.strip("/")`: remove all leading and trailing slash
characters. -/
def pyStripSlashes (s : String) : String :=
  ⟨((s.data.dropWhile (fun c => c == '/')).reverse.dropWhile (fun c => c == '/')).reverse⟩

/-- The `tree_by_path` dictionary built by `find_files_in_tree`: keyed by
entry path, later entries overwriting earlier ones. -/
def treeByPath (entries : List TreeEntry) (p : String) : Option TreeEntry :=
  entries.reverse.find? (fun e => e.path == p)

/-- Embedding of `find_files_in_tree`: normalized requested path to tree
entry, for those paths present in the tree. -/
def find_files_in_tree (entries : List TreeEntry) (paths : List String) :
    List (String × TreeEntry) :=
  paths.filterMap (fun p =>
    let n := pyStripSlashes p
    (treeByPath entries n).map (fun e => (n, e)))

/-- Dictionary lookup into the `find_files_in_tree` result. -/
def lookupFound (found : List (String × TreeEntry)) (p : String) : Option TreeEntry :=
  (found.find? (fun q => q.1 == p)).map (fun q => q.2)

/-- The three buckets the categorization loop fills. -/
structure Catg where
  changed : List String
  skipped : List String
  not_found : List String
deriving DecidableEq, Repr

/-- The categorization loop of `change_file_modes`: a missing path goes to
`not_found`, a non-blob entry or an entry already at the target mode goes to
`skipped`, everything else to `changed`, preserving request order. -/
def categorize (found : List (String × TreeEntry)) (git_mode : String) :
    List String → Catg
  | [] => ⟨[], [], []⟩
  | p :: rest =>
    let r := categorize found git_mode rest
    match lookupFound found p with
    | none => { r with not_found := p :: r.not_found }
    | some e =>
      if e.type != "blob" then { r with skipped := p :: r.skipped }
      else if e.mode == git_mode then { r with skipped := p :: r.skipped }
      else { r with changed := p :: r.changed }

/-- Python `", ".join`. -/
def joinComma : List String → String
  | [] => ""
  | [a] => a
  | a :: rest => a ++ ", " ++ joinComma rest

/-- The auto-generated commit message of `change_file_modes`. -/
def autoMessage (git_mode : String) (changed : List String) : String :=
  let mode_display : String := ⟨git_mode.data.drop (git_mode.data.length - 3)⟩
  match changed with
  | [p] => "Change mode to " ++ mode_display ++ ": " ++ p
  | _ =>
    let file_list := joinComma (changed.take 3)
    let file_list :=
      if changed.length > 3 then
        file_list ++ ", ... (" ++ toString changed.length ++ " files total)"
      else file_list
    "Change mode to " ++ mode_display ++ ": " ++ file_list

/-- The tree-change list built from the `changed` bucket: same blob id, new
mode.  The `none` arm is unreachable because every changed path was found. -/
def treeChangesOf (found : List (String × TreeEntry)) (git_mode : String)
    (changed : List String) : List TreeEntry :=
  changed.map (fun p =>
    match lookupFound found p with
    | some e => ⟨p, git_mode, "blob", e.sha⟩
    | none => ⟨p, git_mode, "blob", ""⟩)

/-- The result dictionary returned by `change_file_modes`. -/
structure ChmodResult where
  commit_sha : Option String
  changed : List String
  skipped : List String
  not_found : List String
deriving DecidableEq, Repr

/-- Embedding of `change_file_modes`: the eight-step pipeline.  The returned
store is the remote state after the run, also when the run aborts. -/
def change_file_modes (inj : Nat → Bool) (s : Store) (paths : List String)
    (mode branch : String) (message : Option String) :
    Except ApiError ChmodResult × Store :=
  match user_mode_to_git_mode mode with
  | .error e => (.error (.badMode e), s)
  | .ok git_mode =>
  match get_branch_head_sha inj s branch with
  | .error e => (.error e, s)
  | .ok head_sha =>
  match get_commit_tree_sha inj s head_sha with
  | .error e => (.error e, s)
  | .ok tree_sha =>
  match get_tree_recursive inj s tree_sha with
  | .error e => (.error e, s)
  | .ok tree_entries =>
  let found_files := find_files_in_tree tree_entries paths
  let normalized := paths.map pyStripSlashes
  let cat := categorize found_files git_mode normalized
  if cat.not_found ≠ [] then (.error (.pathsNotFound cat.not_found), s)
  else if cat.changed = [] then
    (.ok ⟨none, [], cat.skipped, cat.not_found⟩, s)
  else
    let tree_changes := treeChangesOf found_files git_mode cat.changed
    match create_tree_with_changes inj s tree_sha tree_changes with
    | (.error e, s₁) => (.error e, s₁)
    | (.ok new_tree_sha, s₁) =>
      let msg := message.getD (autoMessage git_mode cat.changed)
      match create_commit inj s₁ new_tree_sha head_sha msg with
      | (.error e, s₂) => (.error e, s₂)
      | (.ok new_commit_sha, s₂) =>
        match update_branch_ref inj s₂ branch new_commit_sha with
        | (.error e, s₃) => (.error e, s₃)
        | (.ok _, s₃) =>
          (.ok ⟨some new_commit_sha, cat.changed, cat.skipped, cat.not_found⟩, s₃)

/-! Decision conditions mirroring the three categorization buckets, used to
state the loop's behaviour as list filters. -/

/-- A path lands in `changed`: found, a blob, and not already at the mode. -/
def catgChangedCond (found : List (String × TreeEntry)) (gm : String) (p : String) : Bool :=
  match lookupFound found p with
  | some e => e.type == "blob" && e.mode != gm
  | none => false

/-- A path lands in `skipped`: found but not a blob, or already at the mode. -/
def catgSkippedCond (found : List (String × TreeEntry)) (gm : String) (p : String) : Bool :=
  match lookupFound found p with
  | some e => e.type != "blob" || e.mode == gm
  | none => false

/-- A path lands in `not_found`. -/
def catgMissingCond (found : List (String × TreeEntry)) (_gm : String) (p : String) : Bool :=
  (lookupFound found p).isNone

/-! Concrete stores used by the closed evaluation theorems. -/

/-- A small remote store: one branch, one commit, a tree holding two blobs
and one subtree. -/
def exStore : Store :=
  { branches := [("main", "c0")]
    commits := [⟨"c0", "t0", "", "init"⟩]
    trees := [("t0", [⟨"a/b", "100644", "blob", "sha-ab"⟩,
                      ⟨"x", "100755", "blob", "sha-x"⟩,
                      ⟨"d", "040000", "tree", "sha-d"⟩])]
    tags := []
    tagObjects := []
    fresh := 0 }

/-- A store whose tag `v1` is an annotated tag: the ref points at a tag
object, which in turn points at the commit. -/
def tagStore : Store :=
  { branches := []
    commits := [⟨"commit-main", "t0", "", "m"⟩]
    trees := []
    tags := [("v1", ("tag", "tagobj-1"))]
    tagObjects := [("tagobj-1", "commit-main")]
    fresh := 0 }

/-! Theorems: the retry layer. -/

theorem retryFrom_no_retry (responses : Nat → HttpResponse) (m a : Nat)
    (h : retryCondition (responses a) = false) :
    retryFrom responses m a = (responses a, a + 1) := by
  rw [retryFrom]
  simp [h]

theorem retryFrom_spec (responses : Nat → HttpResponse) :
    ∀ fuel m a, m - a = fuel → a < m →
      a < (retryFrom responses m a).2 ∧ (retryFrom responses m a).2 ≤ m ∧
      (retryFrom responses m a).1 = responses ((retryFrom responses m a).2 - 1) ∧
      ∀ i, a ≤ i → i + 1 < (retryFrom responses m a).2 →
        retryCondition (responses i) = true := by
  intro fuel
  induction fuel with
  | zero => intro m a hf ha; omega
  | succ fuel ih =>
    intro m a hf ha
    rw [retryFrom]
    by_cases hc : a + 1 < m ∧ retryCondition (responses a) = true
    · rw [dif_pos hc]
      obtain ⟨h1, h2, h3, h4⟩ := ih m (a + 1) (by omega) (by omega)
      refine ⟨by omega, h2, h3, ?_⟩
      intro i hai hi
      rcases Nat.eq_or_lt_of_le hai with rfl | hlt
      · exact hc.2
      · exact h4 i (by omega) hi
    · rw [dif_neg hc]
      refine ⟨by omega, by omega, by simp, ?_⟩
      intro i hai hi
      omega

/-- C8: a 2xx response, or a 4xx response other than a rate-limited 403, is
returned immediately after a single attempt; in every case the loop makes at
most 3 attempts, returns the final attempt's response rather than raising
for a non-2xx status, and every attempt that was followed by a retry had
returned a rate-limited 403 or a 5xx response. -/
theorem c8_retry_policy (responses : Nat → HttpResponse) :
    ((200 ≤ (responses 0).status ∧ (responses 0).status < 300) ∨
     (400 ≤ (responses 0).status ∧ (responses 0).status < 500 ∧
       isRateLimit403 (responses 0) = false) →
      make_request_with_retry responses 3 = some (responses 0, 1)) ∧
    (∃ r n, make_request_with_retry responses 3 = some (r, n) ∧
      1 ≤ n ∧ n ≤ 3 ∧ r = responses (n - 1) ∧
      ∀ i, i + 1 < n → retryCondition (responses i) = true) := by
  constructor
  · intro h
    have hrc : retryCondition (responses 0) = false := by
      rcases h with ⟨h1, h2⟩ | ⟨h1, h2, h3⟩
      · have h403 : ((responses 0).status == 403) = false := by
          rw [beq_eq_false_iff_ne]; omega
        simp only [retryCondition, isRateLimit403, h403, Bool.false_and,
          Bool.false_or, decide_eq_false_iff_not, not_le]
        omega
      · simp only [retryCondition, h3, Bool.false_or, decide_eq_false_iff_not, not_le]
        omega
    unfold make_request_with_retry
    rw [if_neg (by omega), retryFrom_no_retry responses 3 0 hrc]
  · obtain ⟨h1, h2, h3, h4⟩ := retryFrom_spec responses 3 3 0 rfl (by omega)
    refine ⟨(retryFrom responses 3 0).1, (retryFrom responses 3 0).2, ?_, by omega, h2, h3, ?_⟩
    · unfold make_request_with_retry
      rw [if_neg (by omega)]
    · intro i hi
      exact h4 i (by omega) hi

/-- C8 witness: a plain 404 response is returned after exactly one attempt,
with no retry and no exception. -/
theorem c8_retry_policy_witness :
    make_request_with_retry (fun _ => ⟨404, false⟩) 3 = some (⟨404, false⟩, 1) :=
  (c8_retry_policy (fun _ => ⟨404, false⟩)).1 (Or.inr (by decide))

/-! Theorems: the mode translator. -/

theorem allOct3_complete (m : String) (h : valid3Octal m) : m ∈ allOct3 := by
  obtain ⟨hlen, hmem⟩ := h
  obtain ⟨l⟩ := m
  obtain ⟨a, b, c, rfl⟩ := List.length_eq_three.mp hlen
  simp only [allOct3, List.mem_flatMap, List.mem_map]
  exact ⟨a, hmem a (by simp), b, hmem b (by simp), c, hmem c (by simp), rfl⟩

set_option maxRecDepth 100000 in
theorem allOct3_check : allOct3.all modeRoundTripOK = true := by decide

theorem mode3_ok (m : String) (h : valid3Octal m) :
    user_mode_to_git_mode m = .ok ("100" ++ m) ∧
    displayedBits (git_mode_to_display ("100" ++ m)) = m := by
  have hcheck : modeRoundTripOK m = true :=
    List.all_eq_true.mp allOct3_check m (allOct3_complete m h)
  unfold modeRoundTripOK at hcheck
  cases hg : user_mode_to_git_mode m with
  | error e => rw [hg] at hcheck; exact absurd hcheck (by simp)
  | ok g =>
    rw [hg] at hcheck
    obtain ⟨hg1, hg2⟩ := Bool.and_eq_true_iff.mp hcheck
    have hgeq : g = "100" ++ m := eq_of_beq hg1
    subst hgeq
    exact ⟨rfl, eq_of_beq hg2⟩

/-- C2: for every valid 3-digit octal mode string, `user_mode_to_git_mode`
produces the mode prefixed with the regular-file type code `100`, and the
display of that git mode names exactly the original permission digits (as
the leading digits of a labelled display, or as the digits after the type
code when the mode is echoed verbatim). -/
theorem c2_mode_round_trip (m : String) (h : valid3Octal m) :
    user_mode_to_git_mode m = .ok ("100" ++ m) ∧
    displayedBits (git_mode_to_display ("100" ++ m)) = m :=
  mode3_ok m h

/-- C2 witness: the round trip at `"755"`. -/
theorem c2_mode_round_trip_witness :
    valid3Octal "755" ∧
    (user_mode_to_git_mode "755" = .ok "100755" ∧
     displayedBits (git_mode_to_display "100755") = "755") :=
  ⟨by decide, c2_mode_round_trip "755" (by decide)⟩

/-- C3 counterexample: the subtree mode `"040000"`, whose type code the
claim lists as recognized, is rejected (its leading zero is stripped first),
while `"110644"`, whose 6-digit type code is not one of the recognized
codes, is passed through unchanged rather than rejected. -/
theorem c3_counterexample :
    user_mode_to_git_mode "040000" = .error "Invalid mode format: 40000" ∧
    user_mode_to_git_mode "110644" = .ok "110644" :=
  ⟨rfl, rfl⟩

theorem head?_dropWhile_false {α : Type} (p : α → Bool) :
    ∀ (l : List α) (x : α), (l.dropWhile p).head? = some x → p x = false := by
  intro l
  induction l with
  | nil => intro x h; simp at h
  | cons a t ih =>
    intro x h
    by_cases hp : p a = true
    · rw [List.dropWhile_cons_of_pos hp] at h
      exact ih x h
    · rw [List.dropWhile_cons_of_neg hp] at h
      simp only [List.head?_cons, Option.some.injEq] at h
      rw [← h]
      exact Bool.eq_false_iff.mpr hp

theorem pyLstripZeros_head_zero (s : String)
    (h : (pyLstripZeros s).data.head? = some '0') : pyLstripZeros s = "0" := by
  unfold pyLstripZeros at h ⊢
  dsimp only at h ⊢
  split at h
  · rename_i h1
    rw [if_pos h1]
  · rename_i h1
    rw [if_neg h1]
    exact absurd (head?_dropWhile_false _ _ _ h) (by simp)

theorem pyLstripZeros_of_head_ne (s : String) (c : Char)
    (hc : s.data.head? = some c) (hne : c ≠ '0') : pyLstripZeros s = s := by
  obtain ⟨l⟩ := s
  cases l with
  | nil => simp at hc
  | cons a t =>
    simp only [List.head?_cons, Option.some.injEq] at hc
    subst hc
    unfold pyLstripZeros
    dsimp only
    rw [List.dropWhile_cons_of_neg (by simpa using hne)]
    rfl

theorem pyZfill3_length (u : String) (h : u.data.length ≤ 3) :
    (pyZfill3 u).data.length = 3 := by
  unfold pyZfill3
  split
  · omega
  · split
    · rfl
    · rename_i c rest heq
      rw [heq] at h
      split <;>
        · dsimp only
          simp only [List.length_cons, List.length_append, List.length_replicate,
            heq] at h ⊢
          omega

theorem data_append_100 (x : String) :
    ("100" ++ x).data = '1' :: '0' :: '0' :: x.data := by
  obtain ⟨l⟩ := x
  rfl

/-- C3 (amended): a valid 3-digit octal string is prefixed with the
regular-file code `100`; an input is returned completely unchanged exactly
when it is 6 characters long and starts with `'1'` — the remaining
characters, and hence the type code, are not validated at all, so
unrecognized codes such as `110` pass through while the subtree code
`040000` is rejected after its leading zero is stripped; and overall the
translation succeeds exactly when either the zero-stripped input is 6 long
starting with `'1'`, or the zero-stripped input has at most 3 characters
and its zero-padded form parses as a Python base-8 integer between 0 and
511. -/
theorem c3_amended_classification :
    (∀ m, valid3Octal m → user_mode_to_git_mode m = .ok ("100" ++ m)) ∧
    (∀ s, user_mode_to_git_mode s = .ok s ↔
      (s.data.length = 6 ∧ s.data.head? = some '1')) ∧
    (∀ s, (user_mode_to_git_mode s).isOk = true ↔
      (((pyLstripZeros s).data.length = 6 ∧ (pyLstripZeros s).data.head? = some '1') ∨
       ((pyLstripZeros s).data.length ≤ 3 ∧
         ∃ n, pyIntOct (pyZfill3 (pyLstripZeros s)) = some n ∧ 0 ≤ n ∧ n ≤ 511))) := by
  refine ⟨fun m h => (mode3_ok m h).1, fun s => ?_, fun s => ?_⟩
  · constructor
    · intro h
      unfold user_mode_to_git_mode at h
      dsimp only at h
      split at h
      · rename_i h1
        injection h with he
        obtain ⟨h6, h10⟩ := h1
        rcases h10 with h10 | h10
        · rw [he] at h6 h10
          exact ⟨h6, h10⟩
        · have := pyLstripZeros_head_zero s h10
          rw [this] at h6
          simp at h6
      · split at h
        · rename_i hle
          split at h
          · rename_i n hn
            split at h
            · exact absurd h (by simp)
            · injection h with he
              constructor
              · rw [← he, data_append_100]
                simp [pyZfill3_length _ hle]
              · rw [← he, data_append_100]
                rfl
          · exact absurd h (by simp)
        · exact absurd h (by simp)
    · rintro ⟨h6, h1⟩
      have he : pyLstripZeros s = s :=
        pyLstripZeros_of_head_ne s '1' h1 (by decide)
      unfold user_mode_to_git_mode
      dsimp only
      rw [he, if_pos ⟨h6, Or.inl h1⟩]
  · constructor
    · intro h
      unfold user_mode_to_git_mode at h
      dsimp only at h
      split at h
      · rename_i h1
        obtain ⟨h6, h10⟩ := h1
        rcases h10 with h10 | h10
        · exact Or.inl ⟨h6, h10⟩
        · have := pyLstripZeros_head_zero s h10
          rw [this] at h6
          simp at h6
      · split at h
        · rename_i hle
          split at h
          · rename_i n hn
            split at h
            · simp [Except.isOk, Except.toBool] at h
            · rename_i hrange
              push_neg at hrange
              exact Or.inr ⟨hle, n, hn, hrange.1, hrange.2⟩
          · simp [Except.isOk, Except.toBool] at h
        · simp [Except.isOk, Except.toBool] at h
    · intro h
      rcases h with ⟨h6, h1⟩ | ⟨h3, n, hn, h0, h511⟩
      · unfold user_mode_to_git_mode
        dsimp only
        rw [if_pos ⟨h6, Or.inl h1⟩]
        rfl
      · unfold user_mode_to_git_mode
        dsimp only
        rw [if_neg (by rintro ⟨h6, -⟩; omega), if_pos h3, hn]
        dsimp only
        rw [if_neg (by omega)]
        rfl

/-- C3 witness: a valid 3-digit mode is prefixed, and a 6-digit string
starting with `'1'` is passed through unchanged. -/
theorem c3_amended_witness :
    user_mode_to_git_mode "644" = .ok "100644" ∧
    user_mode_to_git_mode "110644" = .ok "110644" :=
  ⟨c3_amended_classification.1 "644" (by decide),
   (c3_amended_classification.2.1 "110644").mpr (by decide)⟩

/-! Theorems: the categorization loop as three list filters. -/

theorem catg_trichotomy (found : List (String × TreeEntry)) (gm p : String) :
    (catgChangedCond found gm p = true ∧ catgSkippedCond found gm p = false ∧
      catgMissingCond found gm p = false) ∨
    (catgChangedCond found gm p = false ∧ catgSkippedCond found gm p = true ∧
      catgMissingCond found gm p = false) ∨
    (catgChangedCond found gm p = false ∧ catgSkippedCond found gm p = false ∧
      catgMissingCond found gm p = true) := by
  unfold catgChangedCond catgSkippedCond catgMissingCond
  cases h : lookupFound found p with
  | none => simp
  | some e =>
    by_cases hb : e.type = "blob"
    · by_cases hm : e.mode = gm
      · exact Or.inr (Or.inl (by simp [hb, hm]))
      · exact Or.inl (by simp [hb, hm])
    · exact Or.inr (Or.inl (by simp [hb]))

theorem categorize_eq (found : List (String × TreeEntry)) (gm : String) :
    ∀ l, categorize found gm l =
      ⟨l.filter (catgChangedCond found gm),
       l.filter (catgSkippedCond found gm),
       l.filter (catgMissingCond found gm)⟩ := by
  intro l
  induction l with
  | nil => rfl
  | cons p rest ih =>
    simp only [categorize]
    rw [ih]
    cases hl : lookupFound found p with
    | none =>
      simp [List.filter_cons, catgChangedCond, catgSkippedCond, catgMissingCond, hl]
    | some e =>
      by_cases hb : e.type = "blob" <;> by_cases hm : e.mode = gm <;>
        simp [List.filter_cons, catgChangedCond, catgSkippedCond, catgMissingCond,
          hl, hb, hm]

theorem filter3_perm {α : Type} (a b c : α → Bool) :
    ∀ l : List α,
      (∀ x ∈ l, (a x = true ∧ b x = false ∧ c x = false) ∨
        (a x = false ∧ b x = true ∧ c x = false) ∨
        (a x = false ∧ b x = false ∧ c x = true)) →
      (l.filter a ++ l.filter b ++ l.filter c).Perm l := by
  intro l
  induction l with
  | nil => intro _; simp
  | cons x t ih =>
    intro h
    have iht := ih (fun y hy => h y (List.mem_cons_of_mem x hy))
    rcases h x (List.mem_cons_self x t) with ⟨h1, h2, h3⟩ | ⟨h1, h2, h3⟩ | ⟨h1, h2, h3⟩
    · rw [List.filter_cons_of_pos h1, List.filter_cons_of_neg (by simp [h2]),
        List.filter_cons_of_neg (by simp [h3]), List.cons_append, List.cons_append]
      exact iht.cons x
    · rw [List.filter_cons_of_neg (by simp [h1]), List.filter_cons_of_pos h2,
        List.filter_cons_of_neg (by simp [h3]), List.append_assoc, List.cons_append]
      refine List.Perm.trans List.perm_middle ?_
      refine List.Perm.cons x ?_
      rw [← List.append_assoc]
      exact iht
    · rw [List.filter_cons_of_neg (by simp [h1]), List.filter_cons_of_neg (by simp [h2]),
        List.filter_cons_of_pos h3]
      exact List.Perm.trans List.perm_middle (iht.cons x)

theorem find_files_cons (es : List TreeEntry) (q : String) (rest : List String) :
    find_files_in_tree es (q :: rest) =
      match treeByPath es (pyStripSlashes q) with
      | some e => (pyStripSlashes q, e) :: find_files_in_tree es rest
      | none => find_files_in_tree es rest := by
  unfold find_files_in_tree
  rw [List.filterMap_cons]
  dsimp only
  cases h : treeByPath es (pyStripSlashes q) <;> rfl

theorem lookupFound_cons (n : String) (e : TreeEntry)
    (l : List (String × TreeEntry)) (p : String) :
    lookupFound ((n, e) :: l) p = if n == p then some e else lookupFound l p := by
  unfold lookupFound
  by_cases h : (n == p) = true
  · rw [@List.find?_cons_of_pos _ (fun q => q.1 == p) (n, e) l h, if_pos h]
    rfl
  · rw [@List.find?_cons_of_neg _ (fun q => q.1 == p) (n, e) l h, if_neg h]

theorem lookupFound_find_files (es : List TreeEntry) :
    ∀ (ps : List String) (p : String),
      lookupFound (find_files_in_tree es ps) p =
        if p ∈ ps.map pyStripSlashes then treeByPath es p else none := by
  intro ps
  induction ps with
  | nil =>
    intro p
    simp [find_files_in_tree, lookupFound]
  | cons q rest ih =>
    intro p
    rw [find_files_cons]
    cases hq : treeByPath es (pyStripSlashes q) with
    | none =>
      rw [ih]
      by_cases hp : p = pyStripSlashes q
      · subst hp
        simp [hq]
      · simp [List.map_cons, List.mem_cons, hp]
    | some e =>
      rw [lookupFound_cons, ih]
      by_cases hp : (pyStripSlashes q == p) = true
      · have hpe : p = pyStripSlashes q := (eq_of_beq hp).symm
        subst hpe
        simp [hq]
      · rw [if_neg hp]
        have hne : p ≠ pyStripSlashes q := fun hh => hp (by rw [hh]; exact beq_self_eq_true _)
        simp [List.map_cons, List.mem_cons, hne]

theorem find_files_as_norm (es : List TreeEntry) (paths : List String) :
    find_files_in_tree es paths =
      (paths.map pyStripSlashes).filterMap
        (fun n => (treeByPath es n).map (fun e => (n, e))) := by
  unfold find_files_in_tree
  rw [List.filterMap_map]
  rfl

/-! Theorems: slash normalization. -/

theorem dropWhile_append_all {α : Type} (q : α → Bool) (m : List α) :
    ∀ l, (∀ c ∈ l, q c = true) → (l ++ m).dropWhile q = m.dropWhile q := by
  intro l
  induction l with
  | nil => intro _; rfl
  | cons a t ih =>
    intro h
    rw [List.cons_append, List.dropWhile_cons_of_pos (h a (List.mem_cons_self a t))]
    exact ih (fun c hc => h c (List.mem_cons_of_mem a hc))

theorem dropWhile_append_exists {α : Type} (q : α → Bool) (m : List α) :
    ∀ l, (∃ c ∈ l, q c = false) → (l ++ m).dropWhile q = l.dropWhile q ++ m := by
  intro l
  induction l with
  | nil => rintro ⟨c, hc, -⟩; simp at hc
  | cons a t ih =>
    rintro ⟨c, hc, hq⟩
    by_cases ha : q a = true
    · rw [List.cons_append, List.dropWhile_cons_of_pos ha, List.dropWhile_cons_of_pos ha]
      apply ih
      rcases List.mem_cons.mp hc with rfl | hct
      · rw [ha] at hq; exact absurd hq (by simp)
      · exact ⟨c, hct, hq⟩
    · rw [List.cons_append, List.dropWhile_cons_of_neg ha, List.dropWhile_cons_of_neg ha,
        List.cons_append]

theorem pyStripSlashes_slash_cons (p : String) :
    pyStripSlashes ("/" ++ p) = pyStripSlashes p := by
  unfold pyStripSlashes
  congr 1

theorem pyStripSlashes_append_slash (p : String) :
    pyStripSlashes (p ++ "/") = pyStripSlashes p := by
  unfold pyStripSlashes
  congr 1
  rw [String.data_append]
  by_cases hall : ∀ c ∈ p.data, (c == '/') = true
  · rw [dropWhile_append_all _ _ _ hall, List.dropWhile_eq_nil_iff.mpr hall]
    rfl
  · push_neg at hall
    obtain ⟨c, hc, hq⟩ := hall
    rw [dropWhile_append_exists _ _ _ ⟨c, hc, by simpa using hq⟩, List.reverse_append,
      show ("/" : String).data.reverse = ['/'] from rfl, List.singleton_append,
      List.dropWhile_cons_of_pos (by rfl)]

/-! Theorems: per-operation inversion facts for the pipeline steps. -/

theorem create_tree_branches (inj : Nat → Bool) (s : Store) (b : String)
    (c : List TreeEntry) :
    ((create_tree_with_changes inj s b c).2).branches = s.branches := by
  unfold create_tree_with_changes
  split
  · rfl
  · split <;> rfl

theorem create_commit_branches (inj : Nat → Bool) (s : Store) (t par msg : String) :
    ((create_commit inj s t par msg).2).branches = s.branches := by
  unfold create_commit
  split <;> rfl

theorem create_tree_branches_eq (inj : Nat → Bool) (s : Store) (b : String)
    (c : List TreeEntry) (r : Except ApiError String) (s₁ : Store) :
    create_tree_with_changes inj s b c = (r, s₁) → s₁.branches = s.branches := by
  intro h
  have hb := create_tree_branches inj s b c
  rw [h] at hb
  exact hb

theorem create_commit_branches_eq (inj : Nat → Bool) (s : Store) (t par msg : String)
    (r : Except ApiError String) (s₁ : Store) :
    create_commit inj s t par msg = (r, s₁) → s₁.branches = s.branches := by
  intro h
  have hb := create_commit_branches inj s t par msg
  rw [h] at hb
  exact hb

theorem update_branch_ref_error_store (inj : Nat → Bool) (s : Store) (b c : String)
    (e : ApiError) (s' : Store) :
    update_branch_ref inj s b c = (.error e, s') → s' = s := by
  unfold update_branch_ref
  split
  · intro h; exact (congrArg Prod.snd h).symm
  · split
    · intro h; exact (congrArg Prod.snd h).symm
    · intro h; exact absurd (congrArg Prod.fst h) (by simp)

theorem update_branch_ref_ok_store (inj : Nat → Bool) (s : Store) (b c : String)
    (u : Unit) (s' : Store) :
    update_branch_ref inj s b c = (.ok u, s') →
    inj 8 = false ∧ s'.branches = setBranch s.branches b c := by
  unfold update_branch_ref
  split
  · intro h; exact absurd (congrArg Prod.fst h) (by simp)
  · rename_i h8
    split
    · intro h; exact absurd (congrArg Prod.fst h) (by simp)
    · intro h
      refine ⟨by simpa using h8, ?_⟩
      have h2 := congrArg Prod.snd h
      simp only at h2
      rw [← h2]

theorem get_branch_head_ok (inj : Nat → Bool) (s : Store) (br hd : String) :
    get_branch_head_sha inj s br = .ok hd →
    inj 1 = false ∧ alookup s.branches br = some hd := by
  unfold get_branch_head_sha
  split
  · intro h; exact absurd h (by simp)
  · rename_i h1
    split
    · rename_i sha hs
      intro h
      injection h with he
      exact ⟨by simpa using h1, by rw [hs, he]⟩
    · intro h; exact absurd h (by simp)

theorem get_commit_tree_ok (inj : Nat → Bool) (s : Store) (cs ts : String) :
    get_commit_tree_sha inj s cs = .ok ts →
    inj 2 = false ∧ ∃ cm, s.commits.find? (fun c => c.sha == cs) = some cm ∧ cm.tree = ts := by
  unfold get_commit_tree_sha
  split
  · intro h; exact absurd h (by simp)
  · rename_i h2
    split
    · rename_i cm hcm
      intro h
      injection h with he
      exact ⟨by simpa using h2, cm, hcm, he⟩
    · intro h; exact absurd h (by simp)

theorem get_tree_recursive_ok (inj : Nat → Bool) (s : Store) (ts : String)
    (entries : List TreeEntry) :
    get_tree_recursive inj s ts = .ok entries →
    inj 3 = false ∧ alookup s.trees ts = some entries := by
  unfold get_tree_recursive
  split
  · intro h; exact absurd h (by simp)
  · rename_i h3
    split
    · rename_i es hes
      intro h
      injection h with he
      exact ⟨by simpa using h3, by rw [hes, he]⟩
    · intro h; exact absurd h (by simp)

theorem create_tree_ok (inj : Nat → Bool) (s : Store) (b : String)
    (c : List TreeEntry) (nts : String) (s₁ : Store) :
    create_tree_with_changes inj s b c = (.ok nts, s₁) →
    inj 6 = false ∧ ∃ base, alookup s.trees b = some base ∧
      nts = "tree-" ++ toString s.fresh ∧
      s₁ = { s with trees := (nts, applyTreeChanges base c) :: s.trees,
                    fresh := s.fresh + 1 } := by
  unfold create_tree_with_changes
  split
  · intro h; exact absurd (congrArg Prod.fst h) (by simp)
  · rename_i h6
    split
    · intro h; exact absurd (congrArg Prod.fst h) (by simp)
    · rename_i base hbase
      intro h
      have h1 := congrArg Prod.fst h
      have h2 := (congrArg Prod.snd h).symm
      simp only at h1 h2
      injection h1 with he
      subst he
      exact ⟨by simpa using h6, base, hbase, rfl, by rw [h2]⟩

theorem create_commit_ok (inj : Nat → Bool) (s : Store) (t par msg ncs : String)
    (s₁ : Store) :
    create_commit inj s t par msg = (.ok ncs, s₁) →
    inj 7 = false ∧ ncs = "commit-" ++ toString s.fresh ∧
      s₁ = { s with commits := ⟨ncs, t, par, msg⟩ :: s.commits,
                    fresh := s.fresh + 1 } := by
  unfold create_commit
  split
  · intro h; exact absurd (congrArg Prod.fst h) (by simp)
  · rename_i h7
    intro h
    have h1 := congrArg Prod.fst h
    have h2 := (congrArg Prod.snd h).symm
    simp only at h1 h2
    injection h1 with he
    subst he
    exact ⟨by simpa using h7, rfl, by rw [h2]⟩

/-! Theorems: tree lookup under the store-side structural merge. -/

theorem treeByPath_some_path (l : List TreeEntry) (p : String) (e : TreeEntry) :
    treeByPath l p = some e → e.path = p := by
  unfold treeByPath
  intro h
  have hb := List.find?_some h
  simp only at hb
  exact eq_of_beq hb

theorem treeByPath_mem (l : List TreeEntry) (p : String) (e : TreeEntry) :
    treeByPath l p = some e → e ∈ l := by
  unfold treeByPath
  intro h
  exact List.mem_reverse.mp (List.mem_of_find?_eq_some h)

theorem find?_congr_pred {α : Type} (q₁ q₂ : α → Bool) (h : ∀ x, q₁ x = q₂ x) :
    ∀ l : List α, l.find? q₁ = l.find? q₂ := by
  intro l
  induction l with
  | nil => rfl
  | cons a t ih => rw [List.find?_cons, List.find?_cons, h a, ih]

theorem find?_beq_of_mem (p : String) :
    ∀ l : List String, p ∈ l → l.find? (fun q => q == p) = some p := by
  intro l
  induction l with
  | nil => intro h; simp at h
  | cons a t ih =>
    intro h
    by_cases ha : (a == p) = true
    · rw [@List.find?_cons_of_pos _ (fun q => q == p) a t ha, eq_of_beq ha]
    · rw [@List.find?_cons_of_neg _ (fun q => q == p) a t ha]
      rcases List.mem_cons.mp h with rfl | ht
      · simp at ha
      · exact ih ht

theorem find?_beq_none (p : String) (l : List String) (h : p ∉ l) :
    l.find? (fun q => q == p) = none := by
  rw [List.find?_eq_none]
  intro x hx hbx
  exact h (by rw [← eq_of_beq hbx]; exact hx)

theorem applyTreeChanges_lookup (base chs : List TreeEntry)
    (hch : ∀ c ∈ chs, ∃ e ∈ base, e.path = c.path) (p : String) :
    treeByPath (applyTreeChanges base chs) p =
      (treeByPath base p).map
        (fun e => match chs.find? (fun c => c.path == e.path) with
          | some c => c
          | none => e) := by
  unfold applyTreeChanges
  have hfilter : chs.filter (fun c => base.all (fun e => e.path != c.path)) = [] := by
    rw [List.filter_eq_nil_iff]
    intro c hc
    obtain ⟨e, he, hep⟩ := hch c hc
    intro hall
    have hx := List.all_eq_true.mp hall e he
    rw [hep] at hx
    simp at hx
  rw [hfilter, List.append_nil]
  unfold treeByPath
  rw [← List.map_reverse, List.find?_map]
  have fpath : ∀ e : TreeEntry,
      (match chs.find? (fun c : TreeEntry => c.path == e.path) with
       | some c => c
       | none => e).path = e.path := by
    intro e
    cases hf : chs.find? (fun c : TreeEntry => c.path == e.path) with
    | none => rfl
    | some c =>
      have hb := List.find?_some hf
      simp only at hb
      exact eq_of_beq hb
  rw [find?_congr_pred _ (fun e : TreeEntry => e.path == p) (fun e => by
    show ((match chs.find? (fun c : TreeEntry => c.path == e.path) with
           | some c => c
           | none => e).path == p) = (e.path == p)
    rw [fpath e])]

theorem treeChangesOf_find? (found : List (String × TreeEntry)) (gm : String)
    (changed : List String) (p : String) :
    (treeChangesOf found gm changed).find? (fun c => c.path == p) =
      (changed.find? (fun q => q == p)).map
        (fun q => match lookupFound found q with
          | some e => ⟨q, gm, "blob", e.sha⟩
          | none => ⟨q, gm, "blob", ""⟩) := by
  unfold treeChangesOf
  rw [List.find?_map]
  congr 1
  apply find?_congr_pred
  intro x
  show ((match lookupFound found x with
         | some e => (⟨x, gm, "blob", e.sha⟩ : TreeEntry)
         | none => ⟨x, gm, "blob", ""⟩).path == p) = (x == p)
  cases lookupFound found x <;> rfl

/-- C1: for every run of the mode-change pipeline, a failure at any step —
before or at the final branch update — leaves every branch pointer exactly
as it was, and the only way any branch pointer changes is that the final
`update_branch_ref` call succeeded, in which case the requested branch now
points at the newly created commit. -/
theorem c1_branch_atomicity (inj : Nat → Bool) (s : Store) (paths : List String)
    (mode branch : String) (msg : Option String) :
    (∀ e s', change_file_modes inj s paths mode branch msg = (.error e, s') →
       s'.branches = s.branches) ∧
    (∀ res s', change_file_modes inj s paths mode branch msg = (.ok res, s') →
       (res.commit_sha = none → s'.branches = s.branches) ∧
       (∀ c, res.commit_sha = some c →
          s'.branches = setBranch s.branches branch c)) := by
  constructor
  · intro e s' h
    unfold change_file_modes at h
    dsimp only at h
    split at h
    · injection h with hf hs; rw [← hs]
    · split at h
      · injection h with hf hs; rw [← hs]
      · split at h
        · injection h with hf hs; rw [← hs]
        · split at h
          · injection h with hf hs; rw [← hs]
          · split at h
            · injection h with hf hs; rw [← hs]
            · split at h
              · injection h with hf hs; injection hf
              · split at h
                · rename_i e₆ s₁ heq₆
                  injection h with hf hs
                  rw [← hs]
                  exact create_tree_branches_eq _ _ _ _ _ _ heq₆
                · rename_i nts s₁ heq₆
                  split at h
                  · rename_i e₇ s₂ heq₇
                    injection h with hf hs
                    rw [← hs]
                    exact (create_commit_branches_eq _ _ _ _ _ _ _ heq₇).trans
                      (create_tree_branches_eq _ _ _ _ _ _ heq₆)
                  · rename_i ncs s₂ heq₇
                    split at h
                    · rename_i e₈ s₃ heq₈
                      injection h with hf hs
                      rw [← hs,
                        update_branch_ref_error_store inj s₂ branch ncs e₈ s₃ heq₈]
                      exact (create_commit_branches_eq _ _ _ _ _ _ _ heq₇).trans
                        (create_tree_branches_eq _ _ _ _ _ _ heq₆)
                    · injection h with hf hs; injection hf
  · intro res s' h
    unfold change_file_modes at h
    dsimp only at h
    split at h
    · injection h with hf hs; injection hf
    · split at h
      · injection h with hf hs; injection hf
      · split at h
        · injection h with hf hs; injection hf
        · split at h
          · injection h with hf hs; injection hf
          · split at h
            · injection h with hf hs; injection hf
            · split at h
              · injection h with hf hs
                injection hf with hres
                rw [← hs, ← hres]
                constructor
                · intro _; rfl
                · intro c hc
                  simp at hc
              · split at h
                · injection h with hf hs; injection hf
                · rename_i nts s₁ heq₆
                  split at h
                  · injection h with hf hs; injection hf
                  · rename_i ncs s₂ heq₇
                    split at h
                    · injection h with hf hs; injection hf
                    · rename_i u s₃ heq₈
                      injection h with hf hs
                      injection hf with hres
                      rw [← hs, ← hres]
                      constructor
                      · intro hc; simp at hc
                      · intro c hc
                        simp only [Option.some.injEq] at hc
                        subst hc
                        obtain ⟨-, h₈⟩ :=
                          update_branch_ref_ok_store inj s₂ branch ncs u s₃ heq₈
                        rw [h₈,
                          (create_commit_branches_eq _ _ _ _ _ _ _ heq₇).trans
                            (create_tree_branches_eq _ _ _ _ _ _ heq₆)]

/-- C1 witness: with a missing branch the pipeline aborts at step 1 and the
branch pointers are untouched. -/
theorem c1_branch_atomicity_witness :
    (change_file_modes (fun _ => false) exStore ["x"] "755" "nope" none).2.branches
      = exStore.branches :=
  (c1_branch_atomicity (fun _ => false) exStore ["x"] "755" "nope" none).1
    (.branchNotFound "nope") _ rfl

/-! Theorems: the pipeline under successful reads. -/

theorem update_branch_ref_ok_full (inj : Nat → Bool) (s : Store) (b c : String)
    (u : Unit) (s' : Store) :
    update_branch_ref inj s b c = (.ok u, s') →
    inj 8 = false ∧ s' = { s with branches := setBranch s.branches b c } := by
  unfold update_branch_ref
  split
  · intro h; exact absurd (congrArg Prod.fst h) (by simp)
  · rename_i h8
    split
    · intro h; exact absurd (congrArg Prod.fst h) (by simp)
    · intro h
      have h2 := congrArg Prod.snd h
      simp only at h2
      exact ⟨by simpa using h8, h2.symm⟩

theorem setBranch_lookup (bs : List (String × String)) (b c : String) :
    ∀ x, alookup bs b = some x → alookup (setBranch bs b c) b = some c := by
  induction bs with
  | nil => intro x h; simp [alookup] at h
  | cons q t ih =>
    intro x h
    by_cases hq : (q.1 == b) = true
    · unfold setBranch alookup
      rw [List.map_cons, if_pos hq]
      rw [@List.find?_cons_of_pos _ (fun p => p.1 == b) (b, c) _ (beq_self_eq_true b)]
      rfl
    · unfold setBranch alookup at *
      rw [List.map_cons, if_neg hq]
      rw [@List.find?_cons_of_neg _ (fun p => p.1 == b) q t hq] at h
      rw [@List.find?_cons_of_neg _ (fun p => p.1 == b) q _ hq]
      exact ih x h

theorem alookup_cons_self {α : Type} (k : String) (v : α) (l : List (String × α)) :
    alookup ((k, v) :: l) k = some v := by
  unfold alookup
  rw [@List.find?_cons_of_pos _ (fun p => p.1 == k) (k, v) l (beq_self_eq_true k)]
  rfl

theorem change_file_modes_reads (inj : Nat → Bool) (s : Store) (paths : List String)
    (mode branch : String) (msg : Option String) (gm head_sha tree_sha : String)
    (entries : List TreeEntry)
    (hum : user_mode_to_git_mode mode = .ok gm)
    (h1 : inj 1 = false) (h2 : inj 2 = false) (h3 : inj 3 = false)
    (hbr : alookup s.branches branch = some head_sha)
    (hcm : ∃ cm, s.commits.find? (fun c => c.sha == head_sha) = some cm ∧
       cm.tree = tree_sha)
    (htr : alookup s.trees tree_sha = some entries) :
    change_file_modes inj s paths mode branch msg =
      (let cat := categorize (find_files_in_tree entries paths) gm
          (paths.map pyStripSlashes)
       if cat.not_found ≠ [] then (.error (.pathsNotFound cat.not_found), s)
       else if cat.changed = [] then
         (.ok ⟨none, [], cat.skipped, cat.not_found⟩, s)
       else
         match create_tree_with_changes inj s tree_sha
             (treeChangesOf (find_files_in_tree entries paths) gm cat.changed) with
         | (.error e, s₁) => (.error e, s₁)
         | (.ok new_tree_sha, s₁) =>
           match create_commit inj s₁ new_tree_sha head_sha
               (msg.getD (autoMessage gm cat.changed)) with
           | (.error e, s₂) => (.error e, s₂)
           | (.ok ncs, s₂) =>
             match update_branch_ref inj s₂ branch ncs with
             | (.error e, s₃) => (.error e, s₃)
             | (.ok _, s₃) =>
               (.ok ⟨some ncs, cat.changed, cat.skipped, cat.not_found⟩, s₃)) := by
  obtain ⟨cm, hcmf, hct⟩ := hcm
  have hstep1 : get_branch_head_sha inj s branch = .ok head_sha := by
    unfold get_branch_head_sha
    rw [if_neg (by simp [h1]), hbr]
  have hstep2 : get_commit_tree_sha inj s head_sha = .ok tree_sha := by
    unfold get_commit_tree_sha
    rw [if_neg (by simp [h2]), hcmf]
    dsimp only
    rw [hct]
  have hstep3 : get_tree_recursive inj s tree_sha = .ok entries := by
    unfold get_tree_recursive
    rw [if_neg (by simp [h3]), htr]
  unfold change_file_modes
  rw [hum]
  dsimp only
  rw [hstep1]
  dsimp only
  rw [hstep2]
  dsimp only
  rw [hstep3]

/-- C5: when at least one normalized requested path is absent from the tree,
the pipeline aborts with a NotFound error naming exactly the missing
normalized paths — all of them, and none of the present ones — and the
store, hence every tree, commit and branch pointer, is exactly the input
store. -/
theorem c5_missing_paths_abort (inj : Nat → Bool) (s : Store) (paths : List String)
    (mode branch : String) (msg : Option String) (gm head_sha tree_sha : String)
    (entries : List TreeEntry)
    (hum : user_mode_to_git_mode mode = .ok gm)
    (h1 : inj 1 = false) (h2 : inj 2 = false) (h3 : inj 3 = false)
    (hbr : alookup s.branches branch = some head_sha)
    (hcm : ∃ cm, s.commits.find? (fun c => c.sha == head_sha) = some cm ∧
       cm.tree = tree_sha)
    (htr : alookup s.trees tree_sha = some entries)
    (hmiss : ∃ p ∈ paths.map pyStripSlashes, treeByPath entries p = none) :
    change_file_modes inj s paths mode branch msg =
      (.error (.pathsNotFound ((paths.map pyStripSlashes).filter
         (fun p => (treeByPath entries p).isNone))), s) ∧
    ∀ p, (p ∈ (paths.map pyStripSlashes).filter
        (fun p => (treeByPath entries p).isNone) ↔
      p ∈ paths.map pyStripSlashes ∧ treeByPath entries p = none) := by
  have hfeq : (paths.map pyStripSlashes).filter
        (catgMissingCond (find_files_in_tree entries paths) gm) =
      (paths.map pyStripSlashes).filter (fun p => (treeByPath entries p).isNone) :=
    List.filter_congr (fun p hp => by
      unfold catgMissingCond
      rw [lookupFound_find_files entries paths p, if_pos hp])
  obtain ⟨p0, hp0L, hp0n⟩ := hmiss
  have hne : (paths.map pyStripSlashes).filter
      (fun p => (treeByPath entries p).isNone) ≠ [] :=
    List.ne_nil_of_mem (List.mem_filter.mpr ⟨hp0L, by rw [hp0n]; rfl⟩)
  refine ⟨?_, ?_⟩
  · rw [change_file_modes_reads inj s paths mode branch msg gm head_sha tree_sha
      entries hum h1 h2 h3 hbr hcm htr]
    dsimp only
    rw [categorize_eq]
    dsimp only
    rw [hfeq, if_pos hne]
  · intro p
    rw [List.mem_filter]
    constructor
    · rintro ⟨hpL, hpn⟩
      exact ⟨hpL, Option.isNone_iff_eq_none.mp hpn⟩
    · rintro ⟨hpL, hpn⟩
      exact ⟨hpL, by rw [hpn]; rfl⟩

theorem change_file_modes_all_skip (inj : Nat → Bool) (s : Store)
    (paths : List String) (mode branch : String) (msg : Option String)
    (gm head_sha tree_sha : String) (entries : List TreeEntry)
    (hum : user_mode_to_git_mode mode = .ok gm)
    (h1 : inj 1 = false) (h2 : inj 2 = false) (h3 : inj 3 = false)
    (hbr : alookup s.branches branch = some head_sha)
    (hcm : ∃ cm, s.commits.find? (fun c => c.sha == head_sha) = some cm ∧
       cm.tree = tree_sha)
    (htr : alookup s.trees tree_sha = some entries)
    (hall : ∀ p ∈ paths.map pyStripSlashes, ∃ e, treeByPath entries p = some e ∧
       (e.type ≠ "blob" ∨ e.mode = gm)) :
    change_file_modes inj s paths mode branch msg =
      (.ok ⟨none, [], paths.map pyStripSlashes, []⟩, s) := by
  have hskip : ∀ p ∈ paths.map pyStripSlashes,
      catgSkippedCond (find_files_in_tree entries paths) gm p = true := by
    intro p hp
    obtain ⟨e, he, hcond⟩ := hall p hp
    unfold catgSkippedCond
    rw [lookupFound_find_files entries paths p, if_pos hp, he]
    rcases hcond with hcond | hcond
    · simp [hcond]
    · simp [hcond]
  have hcf : (paths.map pyStripSlashes).filter
      (catgChangedCond (find_files_in_tree entries paths) gm) = [] := by
    rw [List.filter_eq_nil_iff]
    intro p hp
    have hs := hskip p hp
    rcases catg_trichotomy (find_files_in_tree entries paths) gm p with
      ⟨hcc, hsc, -⟩ | ⟨hcc, -, -⟩ | ⟨hcc, hsc, -⟩
    · rw [hs] at hsc; exact absurd hsc (by simp)
    · rw [hcc]; simp
    · rw [hs] at hsc; exact absurd hsc (by simp)
  have hnf : (paths.map pyStripSlashes).filter
      (catgMissingCond (find_files_in_tree entries paths) gm) = [] := by
    rw [List.filter_eq_nil_iff]
    intro p hp
    have hs := hskip p hp
    rcases catg_trichotomy (find_files_in_tree entries paths) gm p with
      ⟨-, hsc, hmc⟩ | ⟨-, -, hmc⟩ | ⟨-, hsc, hmc⟩
    · rw [hs] at hsc; exact absurd hsc (by simp)
    · rw [hmc]; simp
    · rw [hs] at hsc; exact absurd hsc (by simp)
  have hsf : (paths.map pyStripSlashes).filter
      (catgSkippedCond (find_files_in_tree entries paths) gm) =
      paths.map pyStripSlashes :=
    List.filter_eq_self.mpr hskip
  rw [change_file_modes_reads inj s paths mode branch msg gm head_sha tree_sha
    entries hum h1 h2 h3 hbr hcm htr]
  dsimp only
  rw [categorize_eq]
  dsimp only
  rw [hcf, hnf, hsf, if_neg (by simp), if_pos rfl]

theorem success_inversion (inj : Nat → Bool) (s : Store) (paths : List String)
    (mode branch : String) (msg : Option String) (res : ChmodResult) (s' : Store)
    (c : String)
    (h : change_file_modes inj s paths mode branch msg = (.ok res, s'))
    (hc : res.commit_sha = some c) :
    ∃ gm head_sha tree_sha entries,
      user_mode_to_git_mode mode = .ok gm ∧
      inj 1 = false ∧ inj 2 = false ∧ inj 3 = false ∧
      alookup s.branches branch = some head_sha ∧
      (∃ cm, s.commits.find? (fun x => x.sha == head_sha) = some cm ∧
         cm.tree = tree_sha) ∧
      alookup s.trees tree_sha = some entries ∧
      (categorize (find_files_in_tree entries paths) gm
          (paths.map pyStripSlashes)).not_found = [] ∧
      (categorize (find_files_in_tree entries paths) gm
          (paths.map pyStripSlashes)).changed ≠ [] ∧
      res = ⟨some c,
        (categorize (find_files_in_tree entries paths) gm
            (paths.map pyStripSlashes)).changed,
        (categorize (find_files_in_tree entries paths) gm
            (paths.map pyStripSlashes)).skipped,
        (categorize (find_files_in_tree entries paths) gm
            (paths.map pyStripSlashes)).not_found⟩ ∧
      c = "commit-" ++ toString (s.fresh + 1) ∧
      s' = { branches := setBranch s.branches branch c,
             commits := ⟨c, "tree-" ++ toString s.fresh, head_sha,
               msg.getD (autoMessage gm
                 (categorize (find_files_in_tree entries paths) gm
                   (paths.map pyStripSlashes)).changed)⟩ :: s.commits,
             trees := ("tree-" ++ toString s.fresh,
               applyTreeChanges entries
                 (treeChangesOf (find_files_in_tree entries paths) gm
                   (categorize (find_files_in_tree entries paths) gm
                     (paths.map pyStripSlashes)).changed)) :: s.trees,
             tags := s.tags,
             tagObjects := s.tagObjects,
             fresh := s.fresh + 2 } := by
  unfold change_file_modes at h
  dsimp only at h
  split at h
  · injection h with hf hs; injection hf
  · rename_i x₁ gm hum
    split at h
    · injection h with hf hs; injection hf
    · rename_i x₂ hd hbr
      split at h
      · injection h with hf hs; injection hf
      · rename_i x₃ ts hts
        split at h
        · injection h with hf hs; injection hf
        · rename_i x₄ es hes
          split at h
          · injection h with hf hs; injection hf
          · rename_i hnf
            split at h
            · injection h with hf hs
              injection hf with hres
              rw [← hres] at hc
              simp at hc
            · rename_i hch
              split at h
              · injection h with hf hs; injection hf
              · rename_i x₅ nts s₁ heq₆
                split at h
                · injection h with hf hs; injection hf
                · rename_i x₆ ncs s₂ heq₇
                  split at h
                  · injection h with hf hs; injection hf
                  · rename_i x₇ u s₃ heq₈
                    injection h with hf hs
                    injection hf with hres
                    obtain ⟨hi1, hbr'⟩ := get_branch_head_ok inj s branch hd hbr
                    obtain ⟨hi2, cm, hcmf, hct⟩ := get_commit_tree_ok inj s hd ts hts
                    obtain ⟨hi3, htr'⟩ := get_tree_recursive_ok inj s ts es hes
                    obtain ⟨hi6, base, hbase, hnts, hs₁⟩ :=
                      create_tree_ok _ _ _ _ _ _ heq₆
                    obtain ⟨hi7, hncs, hs₂⟩ := create_commit_ok _ _ _ _ _ _ _ heq₇
                    obtain ⟨hi8, hs₃⟩ := update_branch_ref_ok_full _ _ _ _ _ _ heq₈
                    have hbase' : base = es := Option.some.inj (hbase.symm.trans htr')
                    subst hbase'
                    rw [← hres] at hc
                    simp only at hc
                    have hcn : ncs = c := Option.some.inj hc
                    subst hcn
                    subst hnts
                    subst hs₁
                    simp only at hncs hs₂
                    subst hs₂
                    simp only at hs₃
                    subst hs₃
                    refine ⟨gm, hd, ts, base, hum, hi1, hi2, hi3, hbr',
                      ⟨cm, hcmf, hct⟩, htr', not_not.mp hnf, hch, hres.symm,
                      hncs, ?_⟩
                    rw [← hs]

theorem changed_path_entry (entries : List TreeEntry) (paths : List String)
    (gm p : String)
    (hp : p ∈ (categorize (find_files_in_tree entries paths) gm
        (paths.map pyStripSlashes)).changed) :
    p ∈ paths.map pyStripSlashes ∧
    ∃ e₀, treeByPath entries p = some e₀ ∧ e₀.type = "blob" ∧ e₀.mode ≠ gm := by
  rw [categorize_eq] at hp
  dsimp only at hp
  obtain ⟨hpL, hpc⟩ := List.mem_filter.mp hp
  refine ⟨hpL, ?_⟩
  unfold catgChangedCond at hpc
  rw [lookupFound_find_files entries paths p, if_pos hpL] at hpc
  cases hl : treeByPath entries p with
  | none => rw [hl] at hpc; simp at hpc
  | some e₀ =>
    rw [hl] at hpc
    simp only [Bool.and_eq_true, beq_iff_eq, bne_iff_ne] at hpc
    exact ⟨e₀, rfl, hpc.1, hpc.2⟩

theorem treeChanges_wf (entries : List TreeEntry) (paths : List String) (gm : String) :
    ∀ cc ∈ treeChangesOf (find_files_in_tree entries paths) gm
        (categorize (find_files_in_tree entries paths) gm
          (paths.map pyStripSlashes)).changed,
      ∃ e ∈ entries, e.path = cc.path := by
  intro cc hcc
  unfold treeChangesOf at hcc
  obtain ⟨q, hq, hgq⟩ := List.mem_map.mp hcc
  obtain ⟨hqL, e₀, he₀, -, -⟩ := changed_path_entry entries paths gm q hq
  have hccp : cc.path = q := by
    rw [← hgq]
    cases lookupFound (find_files_in_tree entries paths) q <;> rfl
  exact ⟨e₀, treeByPath_mem entries q e₀ he₀,
    by rw [treeByPath_some_path entries q e₀ he₀, hccp]⟩

theorem new_tree_changed (entries : List TreeEntry) (paths : List String)
    (gm p : String)
    (hp : p ∈ (categorize (find_files_in_tree entries paths) gm
        (paths.map pyStripSlashes)).changed) :
    ∃ e₀, treeByPath entries p = some e₀ ∧ e₀.type = "blob" ∧ e₀.mode ≠ gm ∧
      treeByPath (applyTreeChanges entries
          (treeChangesOf (find_files_in_tree entries paths) gm
            (categorize (find_files_in_tree entries paths) gm
              (paths.map pyStripSlashes)).changed)) p
        = some ⟨p, gm, "blob", e₀.sha⟩ := by
  obtain ⟨hpL, e₀, he₀, htype, hmode⟩ := changed_path_entry entries paths gm p hp
  refine ⟨e₀, he₀, htype, hmode, ?_⟩
  rw [applyTreeChanges_lookup entries _ (treeChanges_wf entries paths gm) p, he₀]
  simp only [Option.map_some']
  rw [treeByPath_some_path entries p e₀ he₀, treeChangesOf_find?,
    find?_beq_of_mem p _ hp]
  simp only [Option.map_some']
  rw [lookupFound_find_files entries paths p, if_pos hpL, he₀]

theorem new_tree_skipped (entries : List TreeEntry) (paths : List String)
    (gm p : String)
    (hp : p ∈ (categorize (find_files_in_tree entries paths) gm
        (paths.map pyStripSlashes)).skipped) :
    ∃ e, treeByPath entries p = some e ∧ (e.type ≠ "blob" ∨ e.mode = gm) ∧
      treeByPath (applyTreeChanges entries
          (treeChangesOf (find_files_in_tree entries paths) gm
            (categorize (find_files_in_tree entries paths) gm
              (paths.map pyStripSlashes)).changed)) p
        = some e := by
  rw [categorize_eq] at hp
  dsimp only at hp
  obtain ⟨hpL, hps⟩ := List.mem_filter.mp hp
  unfold catgSkippedCond at hps
  rw [lookupFound_find_files entries paths p, if_pos hpL] at hps
  cases hl : treeByPath entries p with
  | none => rw [hl] at hps; simp at hps
  | some e =>
    rw [hl] at hps
    simp only [Bool.or_eq_true, bne_iff_ne, beq_iff_eq] at hps
    refine ⟨e, rfl, hps, ?_⟩
    rw [applyTreeChanges_lookup entries _ (treeChanges_wf entries paths gm) p, hl]
    simp only [Option.map_some']
    rw [treeByPath_some_path entries p e hl, treeChangesOf_find?]
    have hpnc : p ∉ (categorize (find_files_in_tree entries paths) gm
        (paths.map pyStripSlashes)).changed := by
      intro hx
      obtain ⟨-, e', he', ht', hm'⟩ := changed_path_entry entries paths gm p hx
      have he : e' = e := Option.some.inj (he'.symm.trans hl)
      subst he
      rcases hps with hh | hh
      · exact hh ht'
      · exact hm' hh
    rw [find?_beq_none p _ hpnc]
    simp only [Option.map_none']

theorem ok_inversion (inj : Nat → Bool) (s : Store) (paths : List String)
    (mode branch : String) (msg : Option String) (res : ChmodResult) (s' : Store)
    (h : change_file_modes inj s paths mode branch msg = (.ok res, s')) :
    ∃ gm entries,
      user_mode_to_git_mode mode = .ok gm ∧
      res.changed = (categorize (find_files_in_tree entries paths) gm
          (paths.map pyStripSlashes)).changed ∧
      res.skipped = (categorize (find_files_in_tree entries paths) gm
          (paths.map pyStripSlashes)).skipped ∧
      res.not_found = [] ∧
      (categorize (find_files_in_tree entries paths) gm
          (paths.map pyStripSlashes)).not_found = [] := by
  unfold change_file_modes at h
  dsimp only at h
  split at h
  · injection h with hf hs; injection hf
  · rename_i x₁ gm hum
    split at h
    · injection h with hf hs; injection hf
    · rename_i x₂ hd hbr
      split at h
      · injection h with hf hs; injection hf
      · rename_i x₃ ts hts
        split at h
        · injection h with hf hs; injection hf
        · rename_i x₄ es hes
          split at h
          · injection h with hf hs; injection hf
          · rename_i hnf
            split at h
            · rename_i hch
              injection h with hf hs
              injection hf with hres
              refine ⟨gm, es, hum, ?_, ?_, ?_, not_not.mp hnf⟩
              · rw [← hres, hch]
              · rw [← hres]
              · rw [← hres]
                dsimp only
                exact not_not.mp hnf
            · rename_i hch
              split at h
              · injection h with hf hs; injection hf
              · rename_i x₅ nts s₁ heq₆
                split at h
                · injection h with hf hs; injection hf
                · rename_i x₆ ncs s₂ heq₇
                  split at h
                  · injection h with hf hs; injection hf
                  · rename_i x₇ u s₃ heq₈
                    injection h with hf hs
                    injection hf with hres
                    refine ⟨gm, es, hum, ?_, ?_, ?_, not_not.mp hnf⟩
                    · rw [← hres]
                    · rw [← hres]
                    · rw [← hres]
                      dsimp only
                      exact not_not.mp hnf

/-- C9: any returned (non-aborting) result has pairwise disjoint `changed`,
`skipped` and `not_found` lists, their concatenation is a permutation of the
normalized input path list, and `not_found` is always empty — a missing path
aborts the run instead of being reported in a result. -/
theorem c9_result_partition (inj : Nat → Bool) (s : Store) (paths : List String)
    (mode branch : String) (msg : Option String) (res : ChmodResult) (s' : Store)
    (h : change_file_modes inj s paths mode branch msg = (.ok res, s')) :
    res.not_found = [] ∧
    (∀ p, ¬(p ∈ res.changed ∧ p ∈ res.skipped)) ∧
    (∀ p, ¬(p ∈ res.changed ∧ p ∈ res.not_found)) ∧
    (∀ p, ¬(p ∈ res.skipped ∧ p ∈ res.not_found)) ∧
    (res.changed ++ res.skipped ++ res.not_found).Perm
      (paths.map pyStripSlashes) := by
  obtain ⟨gm, entries, hum, hc, hsk, hnf, hcatnf⟩ :=
    ok_inversion inj s paths mode branch msg res s' h
  rw [categorize_eq] at hc hsk hcatnf
  dsimp only at hc hsk hcatnf
  refine ⟨hnf, ?_, ?_, ?_, ?_⟩
  · rintro p ⟨h1, h2⟩
    rw [hc] at h1
    rw [hsk] at h2
    have hc1 := (List.mem_filter.mp h1).2
    have hc2 := (List.mem_filter.mp h2).2
    rcases catg_trichotomy (find_files_in_tree entries paths) gm p with
      ⟨-, hb, -⟩ | ⟨ha, -, -⟩ | ⟨ha, hb, -⟩
    · exact absurd (hc2.symm.trans hb) (by simp)
    · exact absurd (hc1.symm.trans ha) (by simp)
    · exact absurd (hc1.symm.trans ha) (by simp)
  · rintro p ⟨h1, h2⟩
    rw [hnf] at h2
    exact absurd h2 (List.not_mem_nil p)
  · rintro p ⟨h1, h2⟩
    rw [hnf] at h2
    exact absurd h2 (List.not_mem_nil p)
  · rw [hc, hsk, hnf]
    have hp := filter3_perm
      (catgChangedCond (find_files_in_tree entries paths) gm)
      (catgSkippedCond (find_files_in_tree entries paths) gm)
      (catgMissingCond (find_files_in_tree entries paths) gm)
      (paths.map pyStripSlashes)
      (fun x _ => catg_trichotomy (find_files_in_tree entries paths) gm x)
    rw [hcatnf] at hp
    exact hp

/-- C10: requested paths are compared after stripping leading and trailing
slashes — prefixing or suffixing a slash never changes how a path is
resolved, two requests whose normalized path lists agree behave
identically on every store, and every path reported in a result list is one
of the normalized forms, not a raw caller-supplied form. -/
theorem c10_path_normalization :
    (∀ p : String, pyStripSlashes ("/" ++ p) = pyStripSlashes p ∧
       pyStripSlashes (p ++ "/") = pyStripSlashes p) ∧
    (∀ (inj : Nat → Bool) (s : Store) (paths₁ paths₂ : List String)
        (mode branch : String) (msg : Option String),
       paths₁.map pyStripSlashes = paths₂.map pyStripSlashes →
       change_file_modes inj s paths₁ mode branch msg =
         change_file_modes inj s paths₂ mode branch msg) ∧
    (∀ (inj : Nat → Bool) (s : Store) (paths : List String) (mode branch : String)
        (msg : Option String) (res : ChmodResult) (s' : Store),
       change_file_modes inj s paths mode branch msg = (.ok res, s') →
       (∀ p ∈ res.changed, p ∈ paths.map pyStripSlashes) ∧
       (∀ p ∈ res.skipped, p ∈ paths.map pyStripSlashes) ∧
       (∀ p ∈ res.not_found, p ∈ paths.map pyStripSlashes)) := by
  refine ⟨fun p => ⟨pyStripSlashes_slash_cons p, pyStripSlashes_append_slash p⟩,
    ?_, ?_⟩
  · intro inj s paths₁ paths₂ mode branch msg hmap
    have hff : ∀ es : List TreeEntry,
        find_files_in_tree es paths₁ = find_files_in_tree es paths₂ := fun es => by
      rw [find_files_as_norm, find_files_as_norm, hmap]
    simp only [change_file_modes, hff, hmap]
  · intro inj s paths mode branch msg res s' h
    obtain ⟨gm, entries, hum, hc, hsk, hnf, -⟩ :=
      ok_inversion inj s paths mode branch msg res s' h
    rw [categorize_eq] at hc hsk
    dsimp only at hc hsk
    refine ⟨?_, ?_, ?_⟩
    · intro p hp
      rw [hc] at hp
      exact (List.mem_filter.mp hp).1
    · intro p hp
      rw [hsk] at hp
      exact (List.mem_filter.mp hp).1
    · intro p hp
      rw [hnf] at hp
      exact absurd hp (List.not_mem_nil p)

/-- C6: a successful run that commits (so with at least the claimed N > 1
paths actually changing) creates exactly one new tree object and exactly one
new commit object; the new commit points at the new tree, the branch now
holds that one commit, and the new tree carries every changed path at the
target mode with its blob id unchanged — the changes are batched, never one
commit per path. -/
theorem c6_single_commit_batch (inj : Nat → Bool) (s : Store) (paths : List String)
    (mode branch : String) (msg : Option String) (res : ChmodResult) (s' : Store)
    (c : String)
    (h : change_file_modes inj s paths mode branch msg = (.ok res, s'))
    (hc : res.commit_sha = some c)
    (_hN : 1 < res.changed.length) :
    s'.trees.length = s.trees.length + 1 ∧
    s'.commits.length = s.commits.length + 1 ∧
    ∃ gm entries newTreeSha newEntries cmt,
      user_mode_to_git_mode mode = .ok gm ∧
      s'.trees.head? = some (newTreeSha, newEntries) ∧
      s'.commits.head? = some cmt ∧
      cmt.sha = c ∧ cmt.tree = newTreeSha ∧
      alookup s'.branches branch = some c ∧
      ∀ p ∈ res.changed, ∃ e₀, treeByPath entries p = some e₀ ∧
        e₀.type = "blob" ∧ e₀.mode ≠ gm ∧
        treeByPath newEntries p = some ⟨p, gm, "blob", e₀.sha⟩ := by
  obtain ⟨gm, hd, ts, entries, hum, -, -, -, hbr, -, -, -, -, hres, -, hstore⟩ :=
    success_inversion inj s paths mode branch msg res s' c h hc
  subst hstore
  refine ⟨by simp, by simp, gm, entries, "tree-" ++ toString s.fresh, _, _,
    hum, rfl, rfl, rfl, rfl, ?_, ?_⟩
  · exact setBranch_lookup s.branches branch c hd hbr
  · intro p hp
    rw [hres] at hp
    dsimp only at hp
    exact new_tree_changed entries paths gm p hp

/-- C4: a requested path already at the target mode (or not a plain file) is
skipped, never an error; when every normalized path is such a no-op the
pipeline returns `commit_sha = none` with all paths in `skipped` and the
store — trees, commits and branches — completely untouched; consequently a
second run of a request that just committed finds every path already at the
target mode and creates no second commit. -/
theorem c4_skip_and_idempotence :
    (∀ (inj : Nat → Bool) (s : Store) (paths : List String) (mode branch : String)
        (msg : Option String) (gm head_sha tree_sha : String)
        (entries : List TreeEntry),
       user_mode_to_git_mode mode = .ok gm →
       inj 1 = false → inj 2 = false → inj 3 = false →
       alookup s.branches branch = some head_sha →
       (∃ cm, s.commits.find? (fun x => x.sha == head_sha) = some cm ∧
          cm.tree = tree_sha) →
       alookup s.trees tree_sha = some entries →
       (∀ p ∈ paths.map pyStripSlashes, ∃ e, treeByPath entries p = some e ∧
          (e.type ≠ "blob" ∨ e.mode = gm)) →
       change_file_modes inj s paths mode branch msg =
         (.ok ⟨none, [], paths.map pyStripSlashes, []⟩, s)) ∧
    (∀ (inj inj₂ : Nat → Bool) (s : Store) (paths : List String)
        (mode branch : String) (msg msg₂ : Option String) (res : ChmodResult)
        (s' : Store) (c : String),
       change_file_modes inj s paths mode branch msg = (.ok res, s') →
       res.commit_sha = some c →
       inj₂ 1 = false → inj₂ 2 = false → inj₂ 3 = false →
       change_file_modes inj₂ s' paths mode branch msg₂ =
         (.ok ⟨none, [], paths.map pyStripSlashes, []⟩, s')) := by
  constructor
  · intro inj s paths mode branch msg gm head_sha tree_sha entries hum h1 h2 h3
      hbr hcm htr hall
    exact change_file_modes_all_skip inj s paths mode branch msg gm head_sha
      tree_sha entries hum h1 h2 h3 hbr hcm htr hall
  · intro inj inj₂ s paths mode branch msg msg₂ res s' c h hc hi1 hi2 hi3
    obtain ⟨gm, hd, ts, entries, hum, -, -, -, hbr, -, -, hcnf, -, -, -, hstore⟩ :=
      success_inversion inj s paths mode branch msg res s' c h hc
    subst hstore
    refine change_file_modes_all_skip inj₂ _ paths mode branch msg₂ gm c
      ("tree-" ++ toString s.fresh) _ hum hi1 hi2 hi3
      (setBranch_lookup s.branches branch c hd hbr)
      ⟨⟨c, "tree-" ++ toString s.fresh, hd,
        msg.getD (autoMessage gm (categorize (find_files_in_tree entries paths) gm
          (paths.map pyStripSlashes)).changed)⟩, ?_, rfl⟩
      (alookup_cons_self _ _ _) ?_
    · exact @List.find?_cons_of_pos _ (fun x => x.sha == c)
        ⟨c, "tree-" ++ toString s.fresh, hd,
          msg.getD (autoMessage gm (categorize (find_files_in_tree entries paths) gm
            (paths.map pyStripSlashes)).changed)⟩ s.commits (beq_self_eq_true c)
    · intro p hpL
      have hm0 : (paths.map pyStripSlashes).filter
          (catgMissingCond (find_files_in_tree entries paths) gm) = [] := by
        rw [categorize_eq] at hcnf
        exact hcnf
      rcases catg_trichotomy (find_files_in_tree entries paths) gm p with
        ⟨ha, -, -⟩ | ⟨-, hb, -⟩ | ⟨-, -, hm⟩
      · have hpc : p ∈ (categorize (find_files_in_tree entries paths) gm
            (paths.map pyStripSlashes)).changed := by
          rw [categorize_eq]
          exact List.mem_filter.mpr ⟨hpL, ha⟩
        obtain ⟨e₀, -, -, -, hnew⟩ := new_tree_changed entries paths gm p hpc
        exact ⟨⟨p, gm, "blob", e₀.sha⟩, hnew, Or.inr rfl⟩
      · have hps : p ∈ (categorize (find_files_in_tree entries paths) gm
            (paths.map pyStripSlashes)).skipped := by
          rw [categorize_eq]
          exact List.mem_filter.mpr ⟨hpL, hb⟩
        obtain ⟨e, -, hcond, hnew⟩ := new_tree_skipped entries paths gm p hps
        exact ⟨e, hnew, hcond⟩
      · exact absurd (List.mem_filter.mpr ⟨hpL, hm⟩)
          (by rw [hm0]; exact List.not_mem_nil p)

/-- C7 evaluation: `get_ref_sha` from github_common.py resolves a reference
in branch, tag, commit order, but its tag arm returns the referenced object
id with no dereference hop: for an annotated tag — the ref object has type
`tag` and its target is a tag object, which the store maps to the real
commit — the function returns the tag object's id, which is not a commit id
in the store, contradicting its own documented contract of returning a
commit SHA. -/
theorem c7_annotated_tag_not_dereferenced :
    get_ref_sha tagStore "v1" = .ok "tagobj-1" ∧
    alookup tagStore.tags "v1" = some ("tag", "tagobj-1") ∧
    alookup tagStore.tagObjects "tagobj-1" = some "commit-main" ∧
    tagStore.commits.find? (fun c => c.sha == "tagobj-1") = none ∧
    "tagobj-1" ≠ "commit-main" :=
  ⟨rfl, rfl, rfl, rfl, by decide⟩

/-- C4 witness: requesting mode 755 on a path already at 100755 is a pure
no-op — `commit_sha` is `none`, the path lands in `skipped`, and the store
is unchanged. -/
theorem c4_skip_and_idempotence_witness :
    change_file_modes (fun _ => false) exStore ["x"] "755" "main" none
      = (.ok ⟨none, [], ["x"], []⟩, exStore) := by
  have h := c4_skip_and_idempotence.1 (fun _ => false) exStore ["x"] "755" "main"
    none "100755" "c0" "t0" _ rfl rfl rfl rfl rfl
    ⟨⟨"c0", "t0", "", "init"⟩, rfl, rfl⟩ rfl ?_
  · exact h
  · intro p hp
    have hme : p = "x" := by
      have : List.map pyStripSlashes ["x"] = ["x"] := rfl
      rw [this] at hp
      exact List.mem_singleton.mp hp
    subst hme
    exact ⟨⟨"x", "100755", "blob", "sha-x"⟩, rfl, Or.inr rfl⟩

/-- C5 witness: requesting paths `x` and `y` when only `x` exists aborts
naming exactly `y`, with the store untouched. -/
theorem c5_missing_paths_abort_witness :
    change_file_modes (fun _ => false) exStore ["x", "y"] "755" "main" none
      = (.error (.pathsNotFound ["y"]), exStore) := by
  have h := c5_missing_paths_abort (fun _ => false) exStore ["x", "y"] "755" "main"
    none "100755" "c0" "t0" _ rfl rfl rfl rfl rfl
    ⟨⟨"c0", "t0", "", "init"⟩, rfl, rfl⟩ rfl ⟨"y", by decide, rfl⟩
  exact h.1

/-- C6 witness: changing two paths in one invocation adds exactly one tree
and exactly one commit to the store. -/
theorem c6_single_commit_batch_witness :
    ((change_file_modes (fun _ => false) exStore ["a/b", "x"] "600" "main"
        none).2).trees.length = exStore.trees.length + 1 ∧
    ((change_file_modes (fun _ => false) exStore ["a/b", "x"] "600" "main"
        none).2).commits.length = exStore.commits.length + 1 := by
  have h := c6_single_commit_batch (fun _ => false) exStore ["a/b", "x"] "600"
    "main" none ⟨some "commit-1", ["a/b", "x"], [], []⟩ _ "commit-1" rfl rfl
    (by decide)
  exact ⟨h.1, h.2.1⟩

/-- C9 witness: for a run that skips both requested paths, the three result
lists concatenate to a permutation of the normalized inputs. -/
theorem c9_result_partition_witness :
    (([] : List String) ++ ["d", "x"] ++ []).Perm
      (["d", "x"].map pyStripSlashes) := by
  have h := c9_result_partition (fun _ => false) exStore ["d", "x"] "755" "main"
    none ⟨none, [], ["d", "x"], []⟩ exStore rfl
  exact h.2.2.2.2

/-- C10 witness: the decorated path `/a/b/` and the bare path `a/b` drive
the pipeline identically. -/
theorem c10_path_normalization_witness :
    change_file_modes (fun _ => false) exStore ["/a/b/"] "755" "main" none
      = change_file_modes (fun _ => false) exStore ["a/b"] "755" "main" none :=
  c10_path_normalization.2.1 (fun _ => false) exStore ["/a/b/"] ["a/b"] "755"
    "main" none (by decide)

end GH
